import Mathlib

/-!
Shallow embedding of tensorflow/core/framework/cancellation.cc
(class CancellationManager) and proofs about its cancellation protocol.

The C++ class guards all of its fields by one mutex; callbacks of a
cancellation pass run with the mutex released.  The sequential embedding
below models each critical section as one atomic step on a record of the
manager's fields, and models the running of the drained callbacks as an
explicit event trace emitted by StartCancel, so that temporal claims
(callbacks run before the cancelled flag is set, the notification fires
last) become statements about the order of the trace.

Callbacks are opaque values of a type parameter kappa: the manager never
inspects a callback, it only stores and later emits it, so an invoke
event carries the token / callback pair that ran.
-/

namespace Cancellation

/-- CancellationToken is int64 in the source; kInvalidToken = -1. -/
abbrev CancellationToken := Int

def kInvalidToken : CancellationToken := -1

/-- The tri-state of a manager, per the spec's state machine.  In the
source it is represented by the pair (is_cancelling_, is_cancelled_). -/
inductive ManagerState where
  | Idle
  | Cancelling
  | Cancelled
deriving DecidableEq, Repr

/-- gtl::FlatMap token -> callback, embedded as an association list.
Every registry the code actually builds has pairwise distinct keys
(`keysNodup` below), mirroring the uniqueness of keys in the C++ map. -/
def Registry (κ : Type) : Type := List (CancellationToken × κ)

/-- state_->callbacks.erase(token). -/
def mapErase {κ : Type} (k : CancellationToken) : List (CancellationToken × κ) → List (CancellationToken × κ)
  | [] => []
  | p :: rest => if p.1 = k then mapErase k rest else p :: mapErase k rest

/-- std::swap(state_->callbacks[token], callback): after the swap the map
holds `callback` at key `token` (operator[] default-inserts, then swap). -/
def mapInsert {κ : Type} (k : CancellationToken) (v : κ) (l : List (CancellationToken × κ)) :
    List (CancellationToken × κ) :=
  (k, v) :: mapErase k l

/-- Lookup in the callback map. -/
def mapLookup {κ : Type} (k : CancellationToken) : List (CancellationToken × κ) → Option κ
  | [] => none
  | p :: rest => if p.1 = k then some p.2 else mapLookup k rest

/-- The keys of an association list are pairwise distinct. -/
def keysNodup {κ : Type} (l : List (CancellationToken × κ)) : Prop :=
  (l.map Prod.fst).Nodup

instance {κ : Type} (l : List (CancellationToken × κ)) : Decidable (keysNodup l) := by
  unfold keysNodup; infer_instance

/-- The fields of CancellationManager.  `state` is the lazily allocated
State block (std::unique_ptr<State> state_): `none` means it was never
allocated; when present it holds the callback map.  The block's
Notification exists exactly when the block does. -/
structure CancellationManager (κ : Type) where
  is_cancelling : Bool
  is_cancelled : Bool
  next_cancellation_token : CancellationToken
  state : Option (List (CancellationToken × κ))
deriving DecidableEq, Repr

/-- CancellationManager::CancellationManager(): is_cancelling_(false),
is_cancelled_(false), next_cancellation_token_(0); state_ unallocated. -/
def initialManager {κ : Type} : CancellationManager κ :=
  { is_cancelling := false, is_cancelled := false
    next_cancellation_token := 0, state := none }

/-- The registry as observers see it: an unallocated state block behaves
as an empty map. -/
def registry {κ : Type} (m : CancellationManager κ) : List (CancellationToken × κ) :=
  m.state.getD []

/-- The state-machine view of the boolean pair. -/
def stateOf {κ : Type} (m : CancellationManager κ) : ManagerState :=
  if m.is_cancelled then .Cancelled else if m.is_cancelling then .Cancelling else .Idle

/-- CancellationManager::IsCancelled(). -/
def IsCancelled {κ : Type} (m : CancellationManager κ) : Bool :=
  m.is_cancelled

/-- Observable events of a cancellation pass, in the order StartCancel
performs them: each drained callback is invoked, then is_cancelled_ is
stored true (the Cancelling -> Cancelled transition), then the pass's
Notification is notified (when a state block, hence a notification,
exists). -/
inductive Event (κ : Type) where
  | invoke (token : CancellationToken) (cb : κ)
  | setCancelled
  | notify
deriving DecidableEq, Repr

/-- CancellationManager::StartCancel().  Returns the trace of the call
together with the manager after it.  A call that finds is_cancelled_ or
is_cancelling_ set returns at once with an empty trace.  Otherwise it
sets is_cancelling_, swaps the callback map out (leaving it empty, the
block still allocated), invokes every drained callback without the lock,
then clears is_cancelling_, stores is_cancelled_ = true, and finally
notifies the block's notification if a block was allocated. -/
def StartCancel {κ : Type} (m : CancellationManager κ) :
    List (Event κ) × CancellationManager κ :=
  if m.is_cancelled || m.is_cancelling then ([], m)
  else
    let callbacks_to_run := m.state.getD []
    let m₂ : CancellationManager κ :=
      { m with is_cancelling := false, is_cancelled := true
               state := m.state.map (fun _ => []) }
    (callbacks_to_run.map (fun p => Event.invoke p.1 p.2)
       ++ [Event.setCancelled]
       ++ (if m.state.isSome then [Event.notify] else []),
     m₂)

/-- The first critical section of StartCancel: observe Idle, set
is_cancelling_, swap the callback map out, capture the notification.
Returns the drained entries and the manager mid-pass. -/
def startCancelBegin {κ : Type} (m : CancellationManager κ) :
    List (CancellationToken × κ) × CancellationManager κ :=
  if m.is_cancelled || m.is_cancelling then ([], m)
  else (m.state.getD [],
        { m with is_cancelling := true, state := m.state.map (fun _ => []) })

/-- The second critical section of StartCancel: after all callbacks have
returned, clear is_cancelling_ and store is_cancelled_ = true.  Runs only
on the thread that performed startCancelBegin, hence guarded on
is_cancelling. -/
def startCancelFinish {κ : Type} (m : CancellationManager κ) : CancellationManager κ :=
  if m.is_cancelling then { m with is_cancelling := false, is_cancelled := true } else m

/-- CancellationManager::RegisterCallback(token, callback).
should_register = !is_cancelled_ && !is_cancelling_; when it holds the
state block is allocated if absent and the callback stored at token. -/
def RegisterCallback {κ : Type} (m : CancellationManager κ)
    (token : CancellationToken) (callback : κ) : Bool × CancellationManager κ :=
  let should_register := !m.is_cancelled && !m.is_cancelling
  if should_register then
    (true, { m with state := some (mapInsert token callback (m.state.getD [])) })
  else
    (false, m)

/-- CancellationManager::DeregisterCallback(token).  The third component
records whether the call waited on the pass's notification
(WaitForNotification), which the source does exactly when it observes
is_cancelling_ and a state block (hence a notification) exists. -/
def DeregisterCallback {κ : Type} (m : CancellationManager κ)
    (token : CancellationToken) : Bool × CancellationManager κ × Bool :=
  if m.is_cancelled then (false, m, false)
  else if m.is_cancelling then (false, m, m.state.isSome)
  else (true, { m with state := m.state.map (mapErase token) }, false)

/-- CancellationManager::TryDeregisterCallback(token).  Never waits: the
third component (waited on the notification) is false on every path. -/
def TryDeregisterCallback {κ : Type} (m : CancellationManager κ)
    (token : CancellationToken) : Bool × CancellationManager κ × Bool :=
  if m.is_cancelled || m.is_cancelling then (false, m, false)
  else (true, { m with state := m.state.map (mapErase token) }, false)

/-- Modelled from the spec: only cancellation.cc ships under src; the
declaration of get_cancellation_token lives in the missing header
cancellation.h.  Spec 4.1: under the manager's lock, returns the current
counter value and increments it; no failure mode. -/
def get_cancellation_token {κ : Type} (m : CancellationManager κ) :
    CancellationToken × CancellationManager κ :=
  (m.next_cancellation_token,
   { m with next_cancellation_token := m.next_cancellation_token + 1 })

/-- CancellationManager::CancellationManager(CancellationManager* parent):
obtains a token from the parent, registers a callback (opaque value
`selfStartCancel`, standing for [this]() \x7b this->StartCancel(); \x7d) under
it, and when the registration fails sets the fresh child's is_cancelled_.
Returns (parent after construction, child, parent_token_). -/
def mkChild {κ : Type} (parent : CancellationManager κ) (selfStartCancel : κ) :
    CancellationManager κ × CancellationManager κ × CancellationToken :=
  let tp := get_cancellation_token parent
  let reg := RegisterCallback tp.2 tp.1 selfStartCancel
  (reg.2,
   { is_cancelling := false, is_cancelled := !reg.1
     next_cancellation_token := 0, state := none },
   tp.1)

/-- CancellationManager::~CancellationManager(): first deregister from
the parent (when one is bound), then, only if a state block was ever
allocated, run StartCancel on this manager.  Returns the parent after the
deregistration and the event trace of the destroyed manager's own final
pass. -/
def destroyManager {κ : Type}
    (parent : Option (CancellationManager κ × CancellationToken))
    (m : CancellationManager κ) :
    Option (CancellationManager κ) × List (Event κ) :=
  (parent.map (fun pt => (DeregisterCallback pt.1 pt.2).2.1),
   if m.state.isSome then (StartCancel m).1 else [])

/-- One operation of the public interface, at the granularity of the
source's critical sections: StartCancel appears as its two lock-held
sections cancelBegin / cancelFinish with the callbacks running in
between. -/
inductive MicroOp (κ : Type) where
  | getToken
  | register (token : CancellationToken) (cb : κ)
  | deregister (token : CancellationToken)
  | tryDeregister (token : CancellationToken)
  | cancelBegin
  | cancelFinish
  | queryCancelled
deriving DecidableEq, Repr

/-- The manager after one operation. -/
def microStep {κ : Type} (m : CancellationManager κ) : MicroOp κ → CancellationManager κ
  | .getToken => (get_cancellation_token m).2
  | .register t c => (RegisterCallback m t c).2
  | .deregister t => (DeregisterCallback m t).2.1
  | .tryDeregister t => (TryDeregisterCallback m t).2.1
  | .cancelBegin => (startCancelBegin m).2
  | .cancelFinish => startCancelFinish m
  | .queryCancelled => m

/-- The manager after a sequence of operations. -/
def microRun {κ : Type} (m : CancellationManager κ) : List (MicroOp κ) → CancellationManager κ
  | [] => m
  | op :: ops => microRun (microStep m op) ops

/-- The tokens a sequence of operations makes GetToken hand out, in
order. -/
def runTokens {κ : Type} (m : CancellationManager κ) : List (MicroOp κ) → List CancellationToken
  | [] => []
  | .getToken :: ops =>
    m.next_cancellation_token :: runTokens (microStep m .getToken) ops
  | .register t c :: ops => runTokens (microStep m (.register t c)) ops
  | .deregister t :: ops => runTokens (microStep m (.deregister t)) ops
  | .tryDeregister t :: ops => runTokens (microStep m (.tryDeregister t)) ops
  | .cancelBegin :: ops => runTokens (microStep m .cancelBegin) ops
  | .cancelFinish :: ops => runTokens (microStep m .cancelFinish) ops
  | .queryCancelled :: ops => runTokens (microStep m .queryCancelled) ops

/-- Fold a chain of RegisterCallback calls. -/
def registerAll {κ : Type} (m : CancellationManager κ)
    (regs : List (CancellationToken × κ)) : CancellationManager κ :=
  regs.foldl (fun m tc => (RegisterCallback m tc.1 tc.2).2) m

/-- Call StartCancel n times, concatenating the traces. -/
def iterCancel {κ : Type} (m : CancellationManager κ) :
    Nat → List (Event κ) × CancellationManager κ
  | 0 => ([], m)
  | n + 1 =>
    let r := StartCancel m
    let r' := iterCancel r.2 n
    (r.1 ++ r'.1, r'.2)

/-- The token / callback pairs a trace invokes. -/
def invokedOf {κ : Type} : List (Event κ) → List (CancellationToken × κ)
  | [] => []
  | .invoke t c :: evs => (t, c) :: invokedOf evs
  | .setCancelled :: evs => invokedOf evs
  | .notify :: evs => invokedOf evs

/-- Occurrences of one token / callback pair in a list of entries. -/
def countEntry {κ : Type} [DecidableEq κ] (p : CancellationToken × κ) :
    List (CancellationToken × κ) → Nat
  | [] => 0
  | q :: l => (if q = p then 1 else 0) + countEntry p l

/-- Replay the external effect of the invoke events of a trace on a piece
of collaborator state: eff says how the callback stored under a given
token / callback pair mutates it; setCancelled and notify touch nothing
external. -/
def runEffects {κ σ : Type} (eff : CancellationToken × κ → σ → σ) :
    List (Event κ) → σ → σ
  | [], s => s
  | .invoke t c :: evs, s => runEffects eff evs (eff (t, c) s)
  | .setCancelled :: evs, s => runEffects eff evs s
  | .notify :: evs, s => runEffects eff evs s

/-- A concrete manager that is already Cancelled, for evaluating the
results below at explicit inputs. -/
def cancelledNatManager : CancellationManager Nat :=
  { is_cancelling := false, is_cancelled := true
    next_cancellation_token := 0, state := none }

/-- A concrete Idle manager holding two registered callbacks, for
evaluating the results below at explicit inputs. -/
def idleNatManager : CancellationManager Nat :=
  { is_cancelling := false, is_cancelled := false
    next_cancellation_token := 2, state := some [(0, 10), (1, 11)] }

/-! ### Lemmas about the association-list callback map -/

theorem mapErase_sublist {κ : Type} (k : CancellationToken)
    (l : List (CancellationToken × κ)) : List.Sublist (mapErase k l) l := by
  induction l with
  | nil => simp [mapErase]
  | cons p rest ih =>
    simp only [mapErase]
    split
    · exact ih.cons p
    · exact ih.cons₂ p

theorem mem_mapErase {κ : Type} {k : CancellationToken}
    {l : List (CancellationToken × κ)} {p : CancellationToken × κ} :
    p ∈ mapErase k l ↔ p ∈ l ∧ p.1 ≠ k := by
  induction l with
  | nil => simp [mapErase]
  | cons q rest ih =>
    obtain ⟨a, b⟩ := q
    simp only [mapErase]
    by_cases hak : a = k
    · rw [if_pos hak, ih]
      subst hak
      simp only [List.mem_cons]
      constructor
      · rintro ⟨hm, hne⟩
        exact ⟨Or.inr hm, hne⟩
      · rintro ⟨hm | hm, hne⟩
        · exact absurd (congrArg Prod.fst hm) hne
        · exact ⟨hm, hne⟩
    · rw [if_neg hak]
      simp only [List.mem_cons, ih]
      constructor
      · rintro (rfl | ⟨hm, hne⟩)
        · exact ⟨Or.inl rfl, hak⟩
        · exact ⟨Or.inr hm, hne⟩
      · rintro ⟨rfl | hm, hne⟩
        · exact Or.inl rfl
        · exact Or.inr ⟨hm, hne⟩

theorem keysNodup_mapErase {κ : Type} {k : CancellationToken}
    {l : List (CancellationToken × κ)} (h : keysNodup l) :
    keysNodup (mapErase k l) :=
  List.Nodup.sublist ((mapErase_sublist k l).map Prod.fst) h

theorem not_mem_keys_mapErase {κ : Type} (k : CancellationToken)
    (l : List (CancellationToken × κ)) :
    k ∉ (mapErase k l).map Prod.fst := by
  intro h
  rcases List.mem_map.1 h with ⟨p, hp, hk⟩
  exact (mem_mapErase.1 hp).2 hk

theorem keysNodup_mapInsert {κ : Type} (k : CancellationToken) (v : κ)
    {l : List (CancellationToken × κ)} (h : keysNodup l) :
    keysNodup (mapInsert k v l) := by
  unfold keysNodup mapInsert
  simp only [List.map_cons]
  exact List.nodup_cons.2 ⟨not_mem_keys_mapErase k l, keysNodup_mapErase h⟩

theorem mapLookup_eq_none {κ : Type} {k : CancellationToken}
    {l : List (CancellationToken × κ)} :
    mapLookup k l = none ↔ k ∉ l.map Prod.fst := by
  induction l with
  | nil => simp [mapLookup]
  | cons q rest ih =>
    obtain ⟨a, b⟩ := q
    simp only [mapLookup, List.map_cons, List.mem_cons]
    by_cases hak : a = k
    · simp [hak]
    · simp [hak, ih, Ne.symm hak]

theorem mapLookup_mem {κ : Type} {k : CancellationToken} {v : κ}
    {l : List (CancellationToken × κ)} (h : mapLookup k l = some v) :
    (k, v) ∈ l := by
  induction l with
  | nil => simp [mapLookup] at h
  | cons q rest ih =>
    obtain ⟨a, b⟩ := q
    simp only [mapLookup] at h
    split at h
    · rename_i hq
      replace hq : a = k := hq
      obtain rfl : b = v := Option.some_injective _ h
      subst hq
      exact List.mem_cons_self _ _
    · exact List.mem_cons_of_mem _ (ih h)

theorem mem_mapLookup {κ : Type} {k : CancellationToken} {v : κ}
    {l : List (CancellationToken × κ)} (hnd : keysNodup l) (h : (k, v) ∈ l) :
    mapLookup k l = some v := by
  induction l with
  | nil => simp at h
  | cons q rest ih =>
    obtain ⟨a, b⟩ := q
    rcases List.nodup_cons.1 hnd with ⟨hk, hnd'⟩
    simp only [mapLookup]
    rcases List.mem_cons.1 h with h | h
    · rw [Prod.mk.injEq] at h
      obtain ⟨rfl, rfl⟩ := h
      simp
    · by_cases hak : a = k
      · subst hak
        exact absurd (List.mem_map_of_mem Prod.fst h) hk
      · rw [if_neg hak]
        exact ih hnd' h

theorem mapLookup_mapErase {κ : Type} (t k : CancellationToken)
    (l : List (CancellationToken × κ)) :
    mapLookup t (mapErase k l) = if t = k then none else mapLookup t l := by
  induction l with
  | nil => simp [mapErase, mapLookup]
  | cons q rest ih =>
    obtain ⟨a, b⟩ := q
    simp only [mapErase, mapLookup]
    by_cases hak : a = k <;> by_cases htk : t = k <;> by_cases hat : a = t <;>
      simp_all [mapLookup]

theorem mapLookup_mapInsert {κ : Type} (t k : CancellationToken) (v : κ)
    (l : List (CancellationToken × κ)) :
    mapLookup t (mapInsert k v l) = if t = k then some v else mapLookup t l := by
  simp only [mapInsert, mapLookup]
  by_cases htk : t = k
  · simp [htk]
  · rw [if_neg (fun h : k = t => htk h.symm), if_neg htk, mapLookup_mapErase,
        if_neg htk]

theorem countEntry_eq_zero {κ : Type} [DecidableEq κ] {k : CancellationToken}
    {v : κ} {l : List (CancellationToken × κ)} (h : k ∉ l.map Prod.fst) :
    countEntry (k, v) l = 0 := by
  induction l with
  | nil => rfl
  | cons p rest ih =>
    simp only [List.map_cons, List.mem_cons, not_or] at h
    simp only [countEntry]
    rw [ih h.2, if_neg]
    intro hp
    exact h.1 (by rw [hp])

theorem countEntry_of_keysNodup {κ : Type} [DecidableEq κ]
    (k : CancellationToken) (v : κ) {l : List (CancellationToken × κ)}
    (hnd : keysNodup l) :
    countEntry (k, v) l = if mapLookup k l = some v then 1 else 0 := by
  induction l with
  | nil => simp [countEntry, mapLookup]
  | cons q rest ih =>
    obtain ⟨a, b⟩ := q
    have hk : a ∉ rest.map Prod.fst := (List.nodup_cons.1 hnd).1
    have hnd' : keysNodup rest := (List.nodup_cons.1 hnd).2
    simp only [countEntry, mapLookup]
    by_cases hak : a = k
    · subst hak
      rw [countEntry_eq_zero hk]
      by_cases hbv : b = v <;> simp [hbv]
    · have hne : ((a, b) : CancellationToken × κ) ≠ (k, v) := by
        intro h
        exact hak (congrArg Prod.fst h)
      rw [if_neg hne, ih hnd']
      simp [hak]

/-! ### Lemmas about traces -/

theorem invokedOf_append {κ : Type} (a b : List (Event κ)) :
    invokedOf (a ++ b) = invokedOf a ++ invokedOf b := by
  induction a with
  | nil => rfl
  | cons e rest ih =>
    cases e <;> simp [invokedOf, ih]

theorem invokedOf_map_invoke {κ : Type} (l : List (CancellationToken × κ)) :
    invokedOf (l.map (fun p => Event.invoke p.1 p.2)) = l := by
  induction l with
  | nil => rfl
  | cons p rest ih =>
    simp only [List.map_cons, invokedOf, ih]

/-! ### Lemmas about the manager's state machine -/

theorem stateOf_idle_iff {κ : Type} (m : CancellationManager κ) :
    stateOf m = .Idle ↔ m.is_cancelled = false ∧ m.is_cancelling = false := by
  unfold stateOf
  cases m.is_cancelled <;> cases m.is_cancelling <;> simp

theorem stateOf_cancelling_iff {κ : Type} (m : CancellationManager κ) :
    stateOf m = .Cancelling ↔ m.is_cancelled = false ∧ m.is_cancelling = true := by
  unfold stateOf
  cases m.is_cancelled <;> cases m.is_cancelling <;> simp

theorem stateOf_cancelled_iff {κ : Type} (m : CancellationManager κ) :
    stateOf m = .Cancelled ↔ m.is_cancelled = true := by
  unfold stateOf
  cases m.is_cancelled <;> cases m.is_cancelling <;> simp

theorem stateOf_ne_idle_iff {κ : Type} (m : CancellationManager κ) :
    stateOf m ≠ .Idle ↔ (m.is_cancelled || m.is_cancelling) = true := by
  unfold stateOf
  cases m.is_cancelled <;> cases m.is_cancelling <;> simp

theorem StartCancel_not_idle {κ : Type} {m : CancellationManager κ}
    (h : (m.is_cancelled || m.is_cancelling) = true) :
    StartCancel m = ([], m) := by
  unfold StartCancel
  rw [if_pos h]

theorem StartCancel_idle {κ : Type} {m : CancellationManager κ}
    (h1 : m.is_cancelled = false) (h2 : m.is_cancelling = false) :
    StartCancel m =
      ((m.state.getD []).map (fun p => Event.invoke p.1 p.2)
         ++ [Event.setCancelled]
         ++ (if m.state.isSome then [Event.notify] else []),
       { m with is_cancelling := false, is_cancelled := true
                state := m.state.map (fun _ => []) }) := by
  unfold StartCancel
  rw [if_neg (by simp [h1, h2])]

theorem invokedOf_StartCancel_idle {κ : Type} {m : CancellationManager κ}
    (h1 : m.is_cancelled = false) (h2 : m.is_cancelling = false) :
    invokedOf (StartCancel m).1 = registry m := by
  rw [StartCancel_idle h1 h2]
  simp only [invokedOf_append, invokedOf_map_invoke]
  cases h : m.state.isSome <;> simp [invokedOf, registry]

theorem StartCancel_cancels {κ : Type} {m : CancellationManager κ}
    (h1 : m.is_cancelled = false) (h2 : m.is_cancelling = false) :
    (StartCancel m).2.is_cancelled = true := by
  rw [StartCancel_idle h1 h2]

theorem iterCancel_cancelled {κ : Type} {m : CancellationManager κ}
    (h : m.is_cancelled = true) (n : Nat) : iterCancel m n = ([], m) := by
  induction n with
  | zero => rfl
  | succ n ih =>
    simp only [iterCancel]
    rw [StartCancel_not_idle (by simp [h])]
    simp [ih]

theorem RegisterCallback_flags {κ : Type} (m : CancellationManager κ)
    (t : CancellationToken) (c : κ) :
    (RegisterCallback m t c).2.is_cancelled = m.is_cancelled
      ∧ (RegisterCallback m t c).2.is_cancelling = m.is_cancelling
      ∧ (RegisterCallback m t c).2.next_cancellation_token
          = m.next_cancellation_token := by
  unfold RegisterCallback
  by_cases h : (!m.is_cancelled && !m.is_cancelling) = true <;> simp [h]

theorem registry_RegisterCallback {κ : Type} {m : CancellationManager κ}
    (t : CancellationToken) (c : κ)
    (h1 : m.is_cancelled = false) (h2 : m.is_cancelling = false) :
    (RegisterCallback m t c).1 = true
      ∧ registry (RegisterCallback m t c).2 = mapInsert t c (registry m) := by
  unfold RegisterCallback registry
  simp [h1, h2]

theorem registerAll_cons {κ : Type} (m : CancellationManager κ)
    (tc : CancellationToken × κ) (regs : List (CancellationToken × κ)) :
    registerAll m (tc :: regs) = registerAll (RegisterCallback m tc.1 tc.2).2 regs :=
  rfl

theorem registerAll_flags {κ : Type} (regs : List (CancellationToken × κ))
    (m : CancellationManager κ) :
    (registerAll m regs).is_cancelled = m.is_cancelled
      ∧ (registerAll m regs).is_cancelling = m.is_cancelling := by
  induction regs generalizing m with
  | nil => exact ⟨rfl, rfl⟩
  | cons tc regs ih =>
    rw [registerAll_cons]
    rcases ih (RegisterCallback m tc.1 tc.2).2 with ⟨h1, h2⟩
    rcases RegisterCallback_flags m tc.1 tc.2 with ⟨g1, g2, _⟩
    exact ⟨h1.trans g1, h2.trans g2⟩

theorem keysNodup_registry_registerAll {κ : Type}
    (regs : List (CancellationToken × κ)) {m : CancellationManager κ}
    (h1 : m.is_cancelled = false) (h2 : m.is_cancelling = false)
    (hnd : keysNodup (registry m)) :
    keysNodup (registry (registerAll m regs)) := by
  induction regs generalizing m with
  | nil => exact hnd
  | cons tc regs ih =>
    rw [registerAll_cons]
    rcases RegisterCallback_flags m tc.1 tc.2 with ⟨g1, g2, _⟩
    refine ih (g1.trans h1) (g2.trans h2) ?_
    rw [(registry_RegisterCallback tc.1 tc.2 h1 h2).2]
    exact keysNodup_mapInsert tc.1 tc.2 hnd

theorem microStep_cancelled {κ : Type} {m : CancellationManager κ}
    (h : m.is_cancelled = true) (op : MicroOp κ) :
    (microStep m op).is_cancelled = true := by
  cases op <;> cases hg : m.is_cancelling <;>
    simp [microStep, RegisterCallback, DeregisterCallback, TryDeregisterCallback,
      startCancelBegin, startCancelFinish, get_cancellation_token, h, hg]

theorem microRun_cancelled {κ : Type} {m : CancellationManager κ}
    (h : m.is_cancelled = true) (ops : List (MicroOp κ)) :
    (microRun m ops).is_cancelled = true := by
  induction ops generalizing m with
  | nil => exact h
  | cons op ops ih => exact ih (microStep_cancelled h op)

theorem microStep_notIdle {κ : Type} {m : CancellationManager κ}
    (h : (m.is_cancelled || m.is_cancelling) = true) (op : MicroOp κ) :
    ((microStep m op).is_cancelled || (microStep m op).is_cancelling) = true := by
  cases hc : m.is_cancelled <;> cases hg : m.is_cancelling <;> cases op <;>
    simp_all [microStep, RegisterCallback, DeregisterCallback,
      TryDeregisterCallback, startCancelBegin, startCancelFinish,
      get_cancellation_token]

theorem microRun_notIdle {κ : Type} {m : CancellationManager κ}
    (h : (m.is_cancelled || m.is_cancelling) = true) (ops : List (MicroOp κ)) :
    ((microRun m ops).is_cancelled || (microRun m ops).is_cancelling) = true := by
  induction ops generalizing m with
  | nil => exact h
  | cons op ops ih => exact ih (microStep_notIdle h op)

theorem microStep_counter_le {κ : Type} (m : CancellationManager κ)
    (op : MicroOp κ) :
    m.next_cancellation_token ≤ (microStep m op).next_cancellation_token := by
  cases op <;>
    simp only [microStep, RegisterCallback, DeregisterCallback,
      TryDeregisterCallback, startCancelBegin, startCancelFinish,
      get_cancellation_token] <;>
    (repeat' split) <;> simp

theorem microStep_getToken_counter {κ : Type} (m : CancellationManager κ) :
    (microStep m .getToken).next_cancellation_token
      = m.next_cancellation_token + 1 := rfl

theorem runTokens_lower_bound {κ : Type} (ops : List (MicroOp κ))
    (m : CancellationManager κ) :
    ∀ x ∈ runTokens m ops, m.next_cancellation_token ≤ x := by
  induction ops generalizing m with
  | nil => intro x hx; simp [runTokens] at hx
  | cons op ops ih =>
    intro x hx
    cases op with
    | getToken =>
      rw [runTokens] at hx
      rcases List.mem_cons.1 hx with rfl | hx
      · exact le_refl _
      · have hle := ih (microStep m .getToken) x hx
        rw [microStep_getToken_counter] at hle
        exact le_trans (Int.le_add_one (le_refl _)) hle
    | register t c =>
      exact le_trans (microStep_counter_le m _) (ih _ x (by rwa [runTokens] at hx))
    | deregister t =>
      exact le_trans (microStep_counter_le m _) (ih _ x (by rwa [runTokens] at hx))
    | tryDeregister t =>
      exact le_trans (microStep_counter_le m _) (ih _ x (by rwa [runTokens] at hx))
    | cancelBegin =>
      exact le_trans (microStep_counter_le m _) (ih _ x (by rwa [runTokens] at hx))
    | cancelFinish =>
      exact le_trans (microStep_counter_le m _) (ih _ x (by rwa [runTokens] at hx))
    | queryCancelled =>
      exact le_trans (microStep_counter_le m _) (ih _ x (by rwa [runTokens] at hx))

theorem runTokens_pairwise {κ : Type} (ops : List (MicroOp κ))
    (m : CancellationManager κ) :
    (runTokens m ops).Pairwise (· < ·) := by
  induction ops generalizing m with
  | nil => simp [runTokens]
  | cons op ops ih =>
    cases op with
    | getToken =>
      rw [runTokens]
      refine List.Pairwise.cons ?_ (ih _)
      intro x hx
      have hle := runTokens_lower_bound ops (microStep m .getToken) x hx
      rw [microStep_getToken_counter] at hle
      exact lt_of_lt_of_le (lt_add_one _) hle
    | register t c => rw [runTokens]; exact ih _
    | deregister t => rw [runTokens]; exact ih _
    | tryDeregister t => rw [runTokens]; exact ih _
    | cancelBegin => rw [runTokens]; exact ih _
    | cancelFinish => rw [runTokens]; exact ih _
    | queryCancelled => rw [runTokens]; exact ih _

theorem runEffects_of_untouched {κ σ : Type}
    (eff : CancellationToken × κ → σ → σ) (evs : List (Event κ))
    (h : ∀ q ∈ invokedOf evs, ∀ s' : σ, eff q s' = s') (s : σ) :
    runEffects eff evs s = s := by
  induction evs generalizing s with
  | nil => rfl
  | cons e evs ih =>
    cases e with
    | invoke t c =>
      simp only [runEffects]
      rw [h (t, c) (by simp [invokedOf]) s]
      exact ih (fun q hq s' => h q (by simp [invokedOf, hq]) s') s
    | setCancelled =>
      exact ih (fun q hq s' => h q (by simp [invokedOf, hq]) s') s
    | notify =>
      exact ih (fun q hq s' => h q (by simp [invokedOf, hq]) s') s

/-! ### The claims -/

/-- C1: after any sequence of registrations on a fresh manager, StartCancel
called any number of times invokes each callback registered at the time of
the first (transitioning) call exactly once: the first call drains the whole
registry and runs exactly its entries, and every further call is a no-op
that emits no events. -/
theorem startCancel_runs_each_registered_callback_exactly_once
    {κ : Type} [DecidableEq κ] (regs : List (CancellationToken × κ)) (n : Nat) :
    invokedOf (StartCancel (registerAll initialManager regs)).1
        = registry (registerAll initialManager regs)
    ∧ (∀ t c, countEntry (t, c)
          (invokedOf (iterCancel (registerAll initialManager regs) (n + 1)).1)
        = if mapLookup t (registry (registerAll initialManager regs)) = some c
          then 1 else 0)
    ∧ (iterCancel (StartCancel (registerAll initialManager regs)).2 n).1 = [] := by
  have hflags := registerAll_flags regs (initialManager (κ := κ))
  have h1 : (registerAll initialManager regs).is_cancelled = false := hflags.1
  have h2 : (registerAll initialManager regs).is_cancelling = false := hflags.2
  have hnd : keysNodup (registry (registerAll initialManager regs)) :=
    keysNodup_registry_registerAll regs rfl rfl
      (by simp [registry, initialManager, keysNodup])
  have hinv := invokedOf_StartCancel_idle h1 h2
  have hcan : (StartCancel (registerAll initialManager regs)).2.is_cancelled = true :=
    StartCancel_cancels h1 h2
  have hiter : iterCancel (StartCancel (registerAll initialManager regs)).2 n
      = ([], (StartCancel (registerAll initialManager regs)).2) :=
    iterCancel_cancelled hcan n
  refine ⟨hinv, ?_, by rw [hiter]⟩
  intro t c
  have hone : (iterCancel (registerAll initialManager regs) (n + 1)).1
      = (StartCancel (registerAll initialManager regs)).1 := by
    simp only [iterCancel]
    rw [hiter]
    simp
  rw [hone, hinv]
  exact countEntry_of_keysNodup t c hnd

/-- C2: RegisterCallback returns true and stores the callback exactly when
the manager is Idle (allocating the state block on first use); in any other
state it returns false, leaves the whole manager unchanged, and no later
StartCancel - after any further sequence of operations - invokes anything,
so the rejected callback in particular is never run. -/
theorem registerCallback_succeeds_iff_idle {κ : Type}
    (m : CancellationManager κ) (token : CancellationToken) (cb : κ) :
    (stateOf m = .Idle →
        (RegisterCallback m token cb).1 = true
        ∧ (RegisterCallback m token cb).2.state
            = some (mapInsert token cb (registry m))
        ∧ mapLookup token (registry (RegisterCallback m token cb).2) = some cb)
    ∧ (stateOf m ≠ .Idle →
        RegisterCallback m token cb = (false, m)
        ∧ ∀ ops : List (MicroOp κ),
            invokedOf (StartCancel (microRun m ops)).1 = []) := by
  constructor
  · intro h
    rcases (stateOf_idle_iff m).1 h with ⟨h1, h2⟩
    refine ⟨(registry_RegisterCallback token cb h1 h2).1, ?_, ?_⟩
    · unfold RegisterCallback
      simp [h1, h2, registry]
    · rw [(registry_RegisterCallback token cb h1 h2).2, mapLookup_mapInsert]
      simp
  · intro h
    have hni := (stateOf_ne_idle_iff m).1 h
    constructor
    · unfold RegisterCallback
      have hreg : (!m.is_cancelled && !m.is_cancelling) = false := by
        cases hc : m.is_cancelled <;> cases hg : m.is_cancelling <;> simp_all
      simp [hreg]
    · intro ops
      rw [StartCancel_not_idle (microRun_notIdle hni ops)]
      rfl

/-- C3: the cancellation state is monotonic.  Each operation, at the
granularity of the source's critical sections, either leaves the state
unchanged, or performs Idle -> Cancelling (the first section of
StartCancel), or performs Cancelling -> Cancelled (its second section); and
once Cancelled the manager stays Cancelled under every sequence of
operations. -/
theorem cancellation_state_monotonic {κ : Type} (m : CancellationManager κ)
    (op : MicroOp κ) (ops : List (MicroOp κ)) :
    (stateOf (microStep m op) = stateOf m
      ∨ (stateOf m = .Idle ∧ stateOf (microStep m op) = .Cancelling)
      ∨ (stateOf m = .Cancelling ∧ stateOf (microStep m op) = .Cancelled))
    ∧ (stateOf m = .Cancelled → stateOf (microRun m ops) = .Cancelled) := by
  constructor
  · cases hc : m.is_cancelled <;> cases hg : m.is_cancelling <;> cases op <;>
      simp_all [microStep, stateOf, RegisterCallback, DeregisterCallback,
        TryDeregisterCallback, startCancelBegin, startCancelFinish,
        get_cancellation_token]
  · intro h
    exact (stateOf_cancelled_iff _).2
      (microRun_cancelled ((stateOf_cancelled_iff m).1 h) ops)

/-- C4: DeregisterCallback by exact case on the state: Cancelled returns
false at once, waiting on nothing and changing nothing; Cancelling returns
false, changes nothing, and waits on the pass's notification - which exists
exactly when a state block was ever allocated; Idle removes the token's
entry when present (absence is no error), leaves every other entry, the
flags and the counter unchanged, does not wait, and returns true. -/
theorem deregisterCallback_case_analysis {κ : Type}
    (m : CancellationManager κ) (token : CancellationToken) :
    (stateOf m = .Cancelled → DeregisterCallback m token = (false, m, false))
    ∧ (stateOf m = .Cancelling →
        (DeregisterCallback m token).1 = false
        ∧ (DeregisterCallback m token).2.1 = m
        ∧ (DeregisterCallback m token).2.2 = m.state.isSome)
    ∧ (stateOf m = .Idle →
        (DeregisterCallback m token).1 = true
        ∧ (DeregisterCallback m token).2.2 = false
        ∧ mapLookup token (registry (DeregisterCallback m token).2.1) = none
        ∧ (∀ t, t ≠ token →
            mapLookup t (registry (DeregisterCallback m token).2.1)
              = mapLookup t (registry m))
        ∧ (DeregisterCallback m token).2.1.is_cancelled = m.is_cancelled
        ∧ (DeregisterCallback m token).2.1.is_cancelling = m.is_cancelling
        ∧ (DeregisterCallback m token).2.1.next_cancellation_token
            = m.next_cancellation_token) := by
  refine ⟨?_, ?_, ?_⟩
  · intro h
    have h1 := (stateOf_cancelled_iff m).1 h
    unfold DeregisterCallback
    simp [h1]
  · intro h
    rcases (stateOf_cancelling_iff m).1 h with ⟨h1, h2⟩
    unfold DeregisterCallback
    simp [h1, h2]
  · intro h
    rcases (stateOf_idle_iff m).1 h with ⟨h1, h2⟩
    have hne : ¬m.is_cancelled = true := by simp [h1]
    have hng : ¬m.is_cancelling = true := by simp [h2]
    unfold DeregisterCallback
    rw [if_neg hne, if_neg hng]
    refine ⟨rfl, rfl, ?_, ?_, rfl, rfl, rfl⟩
    · cases hs : m.state <;> simp [registry, mapLookup, mapLookup_mapErase, hs]
    · intro t ht
      cases hs : m.state <;>
        simp [registry, mapLookup, mapLookup_mapErase, ht, hs]

/-- C5: within one StartCancel pass, every captured callback is invoked
before the terminal cancelled flag is stored, and the notification fires
only after the Cancelling -> Cancelled transition; so when IsCancelled is
observed true (or the notification has fired) no callback of the pass is
still to run.  A call that does not transition emits no events at all. -/
theorem cancelled_flag_after_callbacks_notification_last {κ : Type}
    (m : CancellationManager κ) :
    (stateOf m = .Idle →
        IsCancelled (StartCancel m).2 = true
        ∧ ∃ post, (StartCancel m).1
              = (registry m).map (fun p => Event.invoke p.1 p.2)
                ++ Event.setCancelled :: post
            ∧ ∀ e ∈ post, e = Event.notify)
    ∧ (stateOf m ≠ .Idle → (StartCancel m).1 = []) := by
  constructor
  · intro h
    rcases (stateOf_idle_iff m).1 h with ⟨h1, h2⟩
    refine ⟨StartCancel_cancels h1 h2,
      if m.state.isSome then [Event.notify] else [], ?_, ?_⟩
    · rw [StartCancel_idle h1 h2]
      simp [registry]
    · intro e he
      by_cases hms : m.state.isSome = true
      · rw [if_pos hms] at he
        simpa using he
      · rw [if_neg hms] at he
        simp at he
  · intro h
    rw [StartCancel_not_idle ((stateOf_ne_idle_iff m).1 h)]

/-- C6: constructing a child bound to a parent draws the parent's next
token and tries to register the child's self-cancel callback under it;
when the parent is already Cancelling or Cancelled the registration fails
and the child is initialized directly into Cancelled with no state block
and no pass run, after which RegisterCallback on the child - after any
further sequence of operations on it - returns false and changes nothing,
and a StartCancel on the child invokes nothing. -/
theorem child_of_cancelled_parent_is_born_cancelled {κ : Type}
    (p : CancellationManager κ) (cb : κ) (h : stateOf p ≠ .Idle) :
    (mkChild p cb).2.2 = p.next_cancellation_token
    ∧ (mkChild p cb).1
        = { p with next_cancellation_token := p.next_cancellation_token + 1 }
    ∧ stateOf (mkChild p cb).2.1 = .Cancelled
    ∧ (mkChild p cb).2.1.state = none
    ∧ invokedOf (StartCancel (mkChild p cb).2.1).1 = []
    ∧ (∀ (ops : List (MicroOp κ)) (t : CancellationToken) (c : κ),
        (RegisterCallback (microRun (mkChild p cb).2.1 ops) t c).1 = false
        ∧ (RegisterCallback (microRun (mkChild p cb).2.1 ops) t c).2
            = microRun (mkChild p cb).2.1 ops) := by
  have hni := (stateOf_ne_idle_iff p).1 h
  have key : mkChild p cb =
      ({ p with next_cancellation_token := p.next_cancellation_token + 1 },
       { is_cancelling := false, is_cancelled := true
         next_cancellation_token := 0, state := none },
       p.next_cancellation_token) := by
    unfold mkChild get_cancellation_token RegisterCallback
    cases hpc : p.is_cancelled <;> cases hpg : p.is_cancelling <;> simp_all
  rw [key]
  refine ⟨rfl, rfl, by simp [stateOf], rfl, ?_, ?_⟩
  · rw [StartCancel_not_idle (by simp)]
    rfl
  · intro ops t c
    have hcanc : (microRun
        ({ is_cancelling := false, is_cancelled := true
           next_cancellation_token := 0, state := none } :
          CancellationManager κ) ops).is_cancelled = true :=
      microRun_cancelled rfl ops
    constructor <;> (unfold RegisterCallback; simp [hcanc])

/-- C7: a destructor with a parent bound deregisters from the parent, and
runs its own StartCancel only when a state block was ever allocated; after
a child of a still-Idle parent is destroyed, a later StartCancel on the
parent invokes no callback under the child's token, and collaborator state
that only the callback registered under that token would mutate is left
exactly unchanged. -/
theorem destroyed_child_never_invoked_by_parent {κ σ : Type}
    (p child : CancellationManager κ) (tok : CancellationToken)
    (eff : CancellationToken × κ → σ → σ) (s : σ)
    (hIdle : stateOf p = .Idle)
    (heff : ∀ q : CancellationToken × κ, q.1 ≠ tok → ∀ s' : σ, eff q s' = s') :
    (destroyManager (some (p, tok)) child).1
        = some (DeregisterCallback p tok).2.1
    ∧ (child.state = none → (destroyManager (some (p, tok)) child).2 = [])
    ∧ (∀ t c, (t, c) ∈
        invokedOf (StartCancel (DeregisterCallback p tok).2.1).1 → t ≠ tok)
    ∧ runEffects eff (StartCancel (DeregisterCallback p tok).2.1).1 s = s := by
  rcases (stateOf_idle_iff p).1 hIdle with ⟨h1, h2⟩
  have hp' : (DeregisterCallback p tok).2.1
      = { p with state := p.state.map (mapErase tok) } := by
    unfold DeregisterCallback
    simp [h1, h2]
  have hmem : ∀ t c, (t, c) ∈
      invokedOf (StartCancel (DeregisterCallback p tok).2.1).1 → t ≠ tok := by
    intro t c hm
    rw [hp'] at hm
    rw [invokedOf_StartCancel_idle
      (m := { p with state := Option.map (mapErase tok) p.state }) h1 h2] at hm
    cases hs : p.state with
    | none => simp [registry, hs] at hm
    | some l =>
      rw [show registry { p with state := p.state.map (mapErase tok) }
            = mapErase tok l by simp [registry, hs]] at hm
      exact (mem_mapErase.1 hm).2
  refine ⟨rfl, ?_, hmem, ?_⟩
  · intro hnone
    unfold destroyManager
    simp [hnone]
  · refine runEffects_of_untouched eff _ ?_ s
    rintro ⟨t, c⟩ hq s'
    exact heff (t, c) (hmem t c hq) s'

/-- C8: TryDeregisterCallback never waits on the pass's notification; while
Idle it behaves exactly like DeregisterCallback, removing the token's entry
when present and returning true; when Cancelling or Cancelled it returns
false at once leaving the manager untouched. -/
theorem tryDeregisterCallback_never_blocks {κ : Type}
    (m : CancellationManager κ) (token : CancellationToken) :
    (TryDeregisterCallback m token).2.2 = false
    ∧ (stateOf m = .Idle →
        TryDeregisterCallback m token = DeregisterCallback m token
        ∧ (TryDeregisterCallback m token).1 = true
        ∧ (TryDeregisterCallback m token).2.1
            = { m with state := m.state.map (mapErase token) })
    ∧ (stateOf m ≠ .Idle → TryDeregisterCallback m token = (false, m, false)) := by
  refine ⟨?_, ?_, ?_⟩
  · unfold TryDeregisterCallback
    split <;> rfl
  · intro h
    rcases (stateOf_idle_iff m).1 h with ⟨h1, h2⟩
    unfold TryDeregisterCallback DeregisterCallback
    simp [h1, h2]
  · intro h
    unfold TryDeregisterCallback
    rw [if_pos ((stateOf_ne_idle_iff m).1 h)]

/-- C9: the tokens GetToken hands out across any lifetime of operations on
one manager are strictly increasing, hence pairwise distinct and never
reused; each call returns the current counter value and increments it, in
every state - it has no failure mode. -/
theorem tokens_strictly_increasing {κ : Type} (m : CancellationManager κ)
    (ops : List (MicroOp κ)) :
    (runTokens m ops).Pairwise (· < ·)
    ∧ (runTokens m ops).Nodup
    ∧ (get_cancellation_token m).1 = m.next_cancellation_token
    ∧ (get_cancellation_token m).2.next_cancellation_token
        = m.next_cancellation_token + 1 := by
  refine ⟨runTokens_pairwise ops m, ?_, rfl, rfl⟩
  exact (runTokens_pairwise ops m).imp (fun h => ne_of_lt h)

/-- C10: while Idle, registering under a token that already holds a
callback returns true and replaces the stored callback with the new one;
the registry now maps the token to the new callback, and the next
StartCancel pass invokes only the new callback under that token - the
replaced one is dropped and never invoked. -/
theorem register_existing_token_replaces_callback {κ : Type}
    (m : CancellationManager κ) (token : CancellationToken) (oldCb newCb : κ)
    (hIdle : stateOf m = .Idle)
    (hnd : keysNodup (registry m))
    (_hold : mapLookup token (registry m) = some oldCb) :
    (RegisterCallback m token newCb).1 = true
    ∧ mapLookup token (registry (RegisterCallback m token newCb).2) = some newCb
    ∧ (∀ c, (token, c) ∈
        invokedOf (StartCancel (RegisterCallback m token newCb).2).1 → c = newCb)
    ∧ (oldCb ≠ newCb →
        (token, oldCb) ∉
          invokedOf (StartCancel (RegisterCallback m token newCb).2).1) := by
  rcases (stateOf_idle_iff m).1 hIdle with ⟨h1, h2⟩
  obtain ⟨hres, hreg⟩ := registry_RegisterCallback token newCb h1 h2
  have hf := RegisterCallback_flags m token newCb
  have h1' : (RegisterCallback m token newCb).2.is_cancelled = false :=
    hf.1.trans h1
  have h2' : (RegisterCallback m token newCb).2.is_cancelling = false :=
    hf.2.1.trans h2
  have hinv : invokedOf (StartCancel (RegisterCallback m token newCb).2).1
      = registry (RegisterCallback m token newCb).2 :=
    invokedOf_StartCancel_idle h1' h2'
  have hnd' : keysNodup (registry (RegisterCallback m token newCb).2) := by
    rw [hreg]
    exact keysNodup_mapInsert token newCb hnd
  have hlook : mapLookup token (registry (RegisterCallback m token newCb).2)
      = some newCb := by
    rw [hreg, mapLookup_mapInsert]
    simp
  refine ⟨hres, hlook, ?_, ?_⟩
  · intro c hc
    rw [hinv] at hc
    exact Option.some_injective _ ((mem_mapLookup hnd' hc).symm.trans hlook)
  · intro hne hc
    rw [hinv] at hc
    exact hne (Option.some_injective _ ((mem_mapLookup hnd' hc).symm.trans hlook))

/-- Witness for C6: the claim's theorem applied to a concrete parent that
is already Cancelled, its hypothesis discharged by evaluation. -/
theorem child_of_cancelled_parent_is_born_cancelled_witness :
    (mkChild cancelledNatManager 7).2.2
        = cancelledNatManager.next_cancellation_token
    ∧ (mkChild cancelledNatManager 7).1
        = { cancelledNatManager with
            next_cancellation_token :=
              cancelledNatManager.next_cancellation_token + 1 }
    ∧ stateOf (mkChild cancelledNatManager 7).2.1 = .Cancelled
    ∧ (mkChild cancelledNatManager 7).2.1.state = none
    ∧ invokedOf (StartCancel (mkChild cancelledNatManager 7).2.1).1 = []
    ∧ (∀ (ops : List (MicroOp Nat)) (t : CancellationToken) (c : Nat),
        (RegisterCallback (microRun (mkChild cancelledNatManager 7).2.1 ops) t c).1
            = false
        ∧ (RegisterCallback (microRun (mkChild cancelledNatManager 7).2.1 ops) t c).2
            = microRun (mkChild cancelledNatManager 7).2.1 ops) :=
  child_of_cancelled_parent_is_born_cancelled cancelledNatManager 7 (by decide)

/-- Witness for C7: the claim's theorem applied to a concrete Idle parent,
a fresh child destroyed at token 0, and an effect function touched only by
token 0's callback, its hypotheses discharged by evaluation. -/
theorem destroyed_child_never_invoked_by_parent_witness :
    (destroyManager (some (idleNatManager, 0)) initialManager).1
        = some (DeregisterCallback idleNatManager 0).2.1
    ∧ ((initialManager (κ := Nat)).state = none →
        (destroyManager (some (idleNatManager, 0)) initialManager).2 = [])
    ∧ (∀ t c, (t, c) ∈
        invokedOf (StartCancel (DeregisterCallback idleNatManager 0).2.1).1
          → t ≠ 0)
    ∧ runEffects (fun _ s' => s')
        (StartCancel (DeregisterCallback idleNatManager 0).2.1).1 5 = 5 :=
  destroyed_child_never_invoked_by_parent idleNatManager initialManager 0
    (fun _ s' => s') 5 (by decide) (fun _ _ _ => rfl)

/-- Witness for C10: the claim's theorem applied to a concrete Idle manager
that already maps token 0 to callback 10, re-registered with callback 99,
its hypotheses discharged by evaluation. -/
theorem register_existing_token_replaces_callback_witness :
    (RegisterCallback idleNatManager 0 99).1 = true
    ∧ mapLookup 0 (registry (RegisterCallback idleNatManager 0 99).2) = some 99
    ∧ (∀ c, (0, c) ∈
        invokedOf (StartCancel (RegisterCallback idleNatManager 0 99).2).1
          → c = 99)
    ∧ ((10 : Nat) ≠ 99 →
        ((0 : CancellationToken), (10 : Nat)) ∉
          invokedOf (StartCancel (RegisterCallback idleNatManager 0 99).2).1) :=
  register_existing_token_replaces_callback idleNatManager 0 10 99
    (by decide) (by decide) (by decide)

end Cancellation
